import Mathlib

/-!
Shallow embedding of the GARF-Demo assembly client core (`Transformation`
rigid-pose algebra and the `AssembleTask` pose-stream state machine) and
proofs of the specification claims about it.

Numbers are embedded as rationals (exact arithmetic); JavaScript strings are
embedded as `List Char`; the streaming exchange is embedded as a list of
tagged messages consumed by an explicit per-message handler returning the
updated task state together with the events emitted.
-/

/-- A 3-vector, embedded with exact rational coordinates. -/
structure Vec3 where
  x : ℚ
  y : ℚ
  z : ℚ
  deriving DecidableEq, Repr

/-- A quaternion in scalar-first convention `[w, x, y, z]`. -/
structure Quat where
  w : ℚ
  x : ℚ
  y : ℚ
  z : ℚ
  deriving DecidableEq, Repr

/-- Squared norm of a quaternion (the source treats quaternions as unit-norm). -/
def Quat.normSq (q : Quat) : ℚ :=
  q.w * q.w + q.x * q.x + q.y * q.y + q.z * q.z

/-- A rigid pose: translation plus quaternion, as in the source class
`Transformation`. -/
structure Transformation where
  translation : Vec3
  quaternion : Quat
  deriving DecidableEq, Repr

namespace Transformation

/-- Hamilton product of two quaternions, scalar-first (source
`multiplyQuaternions`). -/
def multiplyQuaternions (q1 q2 : Quat) : Quat :=
  ⟨q1.w * q2.w - q1.x * q2.x - q1.y * q2.y - q1.z * q2.z,
   q1.w * q2.x + q1.x * q2.w + q1.y * q2.z - q1.z * q2.y,
   q1.w * q2.y - q1.x * q2.z + q1.y * q2.w + q1.z * q2.x,
   q1.w * q2.z + q1.x * q2.y - q1.y * q2.x + q1.z * q2.w⟩

/-- Conjugation `q * [0,v] * conj q`, the source `rotateVector`. -/
def rotateVector (q : Quat) (v : Vec3) : Vec3 :=
  let qConjugate : Quat := ⟨q.w, -q.x, -q.y, -q.z⟩
  let vQuat : Quat := ⟨0, v.x, v.y, v.z⟩
  let rotatedQuat := multiplyQuaternions (multiplyQuaternions q vQuat) qConjugate
  ⟨rotatedQuat.x, rotatedQuat.y, rotatedQuat.z⟩

/-- Source `Transformation.inverse`: quaternion conjugate, translation
`-rotate(conj q, t)`. -/
def inverse (t : Transformation) : Transformation :=
  let qConjugate : Quat :=
    ⟨t.quaternion.w, -t.quaternion.x, -t.quaternion.y, -t.quaternion.z⟩
  let rotatedTranslation := rotateVector qConjugate t.translation
  ⟨⟨-rotatedTranslation.x, -rotatedTranslation.y, -rotatedTranslation.z⟩,
   qConjugate⟩

/-- Source `Transformation.applyTransformation`: quaternion product
`this.q * other.q`, translation `this.t + rotate(this.q, other.t)`. -/
def applyTransformation (t other : Transformation) : Transformation :=
  let newQuaternion := multiplyQuaternions t.quaternion other.quaternion
  let rotatedTranslation := rotateVector t.quaternion other.translation
  ⟨⟨t.translation.x + rotatedTranslation.x,
    t.translation.y + rotatedTranslation.y,
    t.translation.z + rotatedTranslation.z⟩,
   newQuaternion⟩

end Transformation

/-- The identity pose `([0,0,0],[1,0,0,0])` that `getTransformation` returns
for pseudo-step `-2`. -/
def identityTransformation : Transformation :=
  ⟨⟨0, 0, 0⟩, ⟨1, 0, 0, 0⟩⟩

/-- Claim C2: for a unit-norm pose `t`, composing `t` with `t.inverse()` on
either side yields the identity pose, exactly, over exact arithmetic. -/
theorem applyTransformation_inverse_eq_identity (t : Transformation)
    (h : t.quaternion.normSq = 1) :
    t.applyTransformation t.inverse = identityTransformation ∧
    t.inverse.applyTransformation t = identityTransformation := by
  obtain ⟨⟨tx, ty, tz⟩, ⟨w, x, y, z⟩⟩ := t
  simp only [Quat.normSq] at h
  constructor
  · simp only [Transformation.applyTransformation, Transformation.inverse,
      Transformation.rotateVector, Transformation.multiplyQuaternions,
      identityTransformation, Transformation.mk.injEq, Vec3.mk.injEq,
      Quat.mk.injEq]
    refine ⟨⟨?_, ?_, ?_⟩, ?_, ?_, ?_, ?_⟩
    · linear_combination (-tx * (w ^ 2 + x ^ 2 + y ^ 2 + z ^ 2 + 1)) * h
    · linear_combination (-ty * (w ^ 2 + x ^ 2 + y ^ 2 + z ^ 2 + 1)) * h
    · linear_combination (-tz * (w ^ 2 + x ^ 2 + y ^ 2 + z ^ 2 + 1)) * h
    · linear_combination h
    · ring
    · ring
    · ring
  · simp only [Transformation.applyTransformation, Transformation.inverse,
      Transformation.rotateVector, Transformation.multiplyQuaternions,
      identityTransformation, Transformation.mk.injEq, Vec3.mk.injEq,
      Quat.mk.injEq]
    refine ⟨⟨?_, ?_, ?_⟩, ?_, ?_, ?_, ?_⟩
    · ring
    · ring
    · ring
    · linear_combination h
    · ring
    · ring
    · ring

/-- Concrete unit-norm witness for C2. -/
theorem applyTransformation_inverse_eq_identity_witness :
    (Transformation.mk ⟨1, 2, 3⟩ ⟨3/5, 4/5, 0, 0⟩).quaternion.normSq = 1 ∧
    (Transformation.mk ⟨1, 2, 3⟩ ⟨3/5, 4/5, 0, 0⟩).applyTransformation
        (Transformation.mk ⟨1, 2, 3⟩ ⟨3/5, 4/5, 0, 0⟩).inverse
      = identityTransformation :=
  ⟨by norm_num [Quat.normSq],
   (applyTransformation_inverse_eq_identity _
     (by norm_num [Quat.normSq])).1⟩

/-! ## JavaScript string operations used by the constructor -/

/-- A JavaScript string, embedded as its character sequence. -/
abbrev JSStr := List Char

/-- Embedding of JavaScript `s.split(".")`: splits on every dot, keeping
empty parts. -/
def splitOnDot : JSStr → List JSStr
  | [] => [[]]
  | c :: s =>
    let r := splitOnDot s
    if c = '.' then [] :: r else (c :: r.headD []) :: r.tail

/-- Embedding of `name.split(".").slice(-1)[0]`: the part after the last
dot (the whole name when it has no dot). -/
def extOf (s : JSStr) : JSStr := (splitOnDot s).getLastD []

/-- Embedding of JavaScript `s.endsWith(post)`. -/
def jsEndsWith (s post : JSStr) : Bool := post.isSuffixOf s

/-! ## Task data model -/

/-- Source `AssembleStatus` enum. -/
inductive AssembleStatus
  | INIT
  | REQUESTED
  | QUEUED
  | PROGRESSING
  | COMPLETED
  | FAILED
  deriving DecidableEq, Repr

/-- The `"uniform" | "poisson"` sampling strategy tag. -/
inductive SampleStrategy
  | uniform
  | poisson
  deriving DecidableEq, Repr

/-- Source `AssembleSettings`; optional string fields are `Option`, with
`none` embedding JavaScript `undefined` (field absent). -/
structure AssembleSettings where
  samplePoints : Int
  steps : Int
  seed : Int
  maxIterations : Int
  oneStepInit : Bool
  sampleStrategy : SampleStrategy
  loraCheckpoint : Option JSStr
  ckpt : Option JSStr
  dataCollection : Bool
  deriving DecidableEq, Repr

/-- The notifications an `AssembleTask` emits (`AssembleTaskEvent`). -/
inductive Event
  | step (stepIdx : Int) (totalSteps : Int)
  | statusUpdate (status : AssembleStatus)
  | statusUpdateProgress (status : AssembleStatus) (step : Int) (totalSteps : Int)
  | meshScale (scale : ℚ)
  | recvPointClouds (pointClouds : List (List Vec3))
  | recvFractureSurfaces (fractureSurfaces : List (List Vec3))
  | recvMetrics (metrics : List (JSStr × ℚ))
  deriving DecidableEq, Repr

/-- Payload of an `"input"` message. -/
structure InputData where
  pointclouds : List (List Vec3)
  initial_translation : List Vec3
  initial_rotation : List Quat
  deriving DecidableEq, Repr

/-- Payload of a `"transformation"` message. -/
structure TransformationData where
  translation : List Vec3
  rotation : List Quat
  step : Int
  iter : Int
  deriving DecidableEq, Repr

/-- The tagged data payloads of the streaming exchange (`AssembleMsg`). -/
inductive AssembleMsg
  | mesh_scale (data : ℚ)
  | input (data : InputData)
  | fracture_segmentation (data : List (List Vec3))
  | transformation (data : TransformationData)
  | metrics (data : List (JSStr × ℚ))
  deriving DecidableEq, Repr

/-- Lifecycle stages of the streaming exchange's status envelopes. -/
inductive Stage
  | pending
  | generating
  | error
  | complete
  deriving DecidableEq, Repr

/-- An envelope message of the streaming exchange: lifecycle status, one
data payload, or a log record. -/
inductive GradioMsg
  | status (stage : Stage)
  | data (d : AssembleMsg)
  | log
  deriving DecidableEq, Repr

/-- State of one `AssembleTask`. The render-object cache `_meshObj` (opaque
THREE.js handles) and the client handle are outside the embedding; file
blobs are represented by their names. -/
structure AssembleTask where
  meshType : JSStr
  status : AssembleStatus
  initial_transformations : List Transformation
  originalTransformations : List (List Transformation)
  transformations : List (List Transformation)
  pointClouds : List (List Vec3)
  fractureSurfaces : List (List Vec3)
  _currentStep : Int
  _totalSteps : Int
  meshScale : ℚ
  pieces : List JSStr
  meshesFile : List JSStr
  meshesFilePathOnServer : List JSStr
  deriving DecidableEq, Repr

/-- Junk value standing for a JavaScript undefined-indexing result. -/
def defaultQuat : Quat := ⟨0, 0, 0, 0⟩

/-- Junk value standing for a JavaScript undefined-indexing result. -/
def defaultTransformation : Transformation := ⟨⟨0, 0, 0⟩, defaultQuat⟩

/-- Embedding of the `AssembleTask` constructor: validates the file list and
initializes the state fields; throwing is embedded as `Except.error`. -/
def mkAssembleTask (meshesFile : List JSStr) (meshesFilePathOnServer : List JSStr) :
    Except JSStr AssembleTask :=
  if meshesFile.length < 2 then
    .error "At least two meshes are required".data
  else
    let meshType := extOf (meshesFile.headD [])
    if meshType = "obj".data ∨ meshType = "ply".data then
      if meshesFile.all (fun f => jsEndsWith f meshType) then
        .ok
          { meshType := meshType
            status := .INIT
            initial_transformations := []
            originalTransformations := []
            transformations := []
            pointClouds := []
            fractureSurfaces := []
            _currentStep := -2
            _totalSteps := 0
            meshScale := 1
            pieces := meshesFile
            meshesFile := meshesFile
            meshesFilePathOnServer := meshesFilePathOnServer }
      else
        .error "All meshes must be of the same type".data
    else
      .error "Only .obj and .ply files are supported".data

/-! ## Task operations -/

/-- The effect of `startAssemble`'s `delete settings.loraCheckpoint` /
`delete settings.ckpt` on one optional string field: a falsy value
(absent or the empty string) is removed. -/
def normalizeOptField (o : Option JSStr) : Option JSStr :=
  match o with
  | some s => if s = [] then none else some s
  | none => none

/-- The in-place normalization `startAssemble` performs on the caller's settings
object: both optional string fields are deleted when falsy, all other
fields are untouched. -/
def normalizeSettings (s : AssembleSettings) : AssembleSettings :=
  { s with
    loraCheckpoint := normalizeOptField s.loraCheckpoint
    ckpt := normalizeOptField s.ckpt }

/-- The arguments of the single `/inference` streaming submission: either
the raw file blobs (by name) or the pre-uploaded remote paths. -/
structure SubmitArgs where
  files : Option (List JSStr)
  paths : List JSStr
  meshType : JSStr
  settings : AssembleSettings
  deriving DecidableEq, Repr

/-- The synchronous preamble of `startAssemble`, up to and including opening
the streaming exchange: the re-entrancy guard, the settings-field deletion
(the returned `AssembleSettings` is the caller's settings object after the
call, since the source mutates it in place), the history reset, the two
initial notifications, and the submission arguments. -/
def startAssemblePre (t : AssembleTask) (settings : AssembleSettings) :
    Except JSStr (AssembleTask × AssembleSettings × List Event × SubmitArgs) :=
  if t.status = .REQUESTED ∨ t.status = .QUEUED ∨ t.status = .PROGRESSING then
    .error "Task has already started".data
  else
    let s := normalizeSettings settings
    let total : Int :=
      s.steps * s.maxIterations + (if s.oneStepInit then 1 else 0)
    let t1 : AssembleTask :=
      { t with
        status := .REQUESTED
        transformations := []
        originalTransformations := []
        initial_transformations := []
        _currentStep := -2
        _totalSteps := total }
    let args : SubmitArgs :=
      if t.meshesFilePathOnServer.length = t.meshesFile.length then
        ⟨none, t.meshesFilePathOnServer, t.meshType, s⟩
      else
        ⟨some t.meshesFile, [], t.meshType, s⟩
    .ok (t1, s, [.statusUpdate .REQUESTED, .step (-2) total], args)

/-- Handler of a lifecycle `status` envelope inside `startAssemble`'s
message loop. -/
def handleStatus (t : AssembleTask) (stage : Stage) : AssembleTask × List Event :=
  match stage with
  | .pending =>
    ({ t with status := .QUEUED }, [.statusUpdate .QUEUED])
  | .generating =>
    ({ t with status := .PROGRESSING },
     [.statusUpdateProgress .PROGRESSING (t._currentStep + 1) t._totalSteps])
  | .error =>
    ({ t with status := .FAILED }, [.statusUpdate .FAILED])
  | .complete =>
    ({ t with status := .COMPLETED }, [.statusUpdate .COMPLETED])

/-- Handler of one tagged data payload inside `startAssemble`'s message
loop; out-of-range JavaScript indexing is embedded by `getD` with a junk
default. -/
def handleData (t : AssembleTask) (msg : AssembleMsg) : AssembleTask × List Event :=
  match msg with
  | .mesh_scale d =>
    if d ≠ t.meshScale then
      ({ t with meshScale := d }, [.meshScale d])
    else
      (t, [])
  | .input d =>
    ({ t with
        initial_transformations :=
          d.initial_translation.mapIdx fun idx trans =>
            Transformation.mk trans (d.initial_rotation.getD idx defaultQuat)
        pointClouds := d.pointclouds
        _currentStep := -1 },
     [.recvPointClouds d.pointclouds, .step (-1) t._totalSteps])
  | .fracture_segmentation d =>
    if t.transformations.length ≤ 5 then
      ({ t with fractureSurfaces := d }, [.recvFractureSurfaces d])
    else
      (t, [])
  | .transformation d =>
    let transformation :=
      d.translation.mapIdx fun idx trans =>
        (Transformation.mk trans (d.rotation.getD idx defaultQuat)).applyTransformation
          ((t.initial_transformations.getD idx defaultTransformation).inverse)
    let originalTransformation :=
      d.translation.mapIdx fun idx trans =>
        Transformation.mk trans (d.rotation.getD idx defaultQuat)
    let newTransformations := t.transformations ++ [transformation]
    ({ t with
        transformations := newTransformations
        originalTransformations := t.originalTransformations ++ [originalTransformation]
        _currentStep := (newTransformations.length : Int) - 1 },
     [.step ((newTransformations.length : Int) - 1) t._totalSteps])
  | .metrics d =>
    (t, [.recvMetrics d])

/-- Handler of one envelope message of the streaming exchange. -/
def handleMsg (t : AssembleTask) (msg : GradioMsg) : AssembleTask × List Event :=
  match msg with
  | .status stage => handleStatus t stage
  | .data d => handleData t d
  | .log => (t, [])

/-- Embedding of the `currentStep` setter. A thrown `InvalidStepError` is
embedded as an `Except.error` first component; the task returned alongside
is the caller-visible object after the call (unchanged on failure, as the
source throws before any mutation). -/
def setCurrentStep (t : AssembleTask) (step : Int) :
    Except JSStr Unit × AssembleTask × List Event :=
  if step < -2 ∨ (t.transformations.length : Int) ≤ step then
    (.error "Invalid step index".data, t, [])
  else
    (.ok (), { t with _currentStep := step }, [.step step t._totalSteps])

/-- Embedding of `getTransformation(index, step)` with the step argument
given. Out-of-range JavaScript indexing (which throws on member access of
`undefined`) is embedded as `none`. -/
def AssembleTask.getTransformation (t : AssembleTask) (index : Nat) (step : Int) :
    Option Transformation :=
  if step = -2 then
    some identityTransformation
  else if step = -1 then
    (t.initial_transformations[index]?).map Transformation.inverse
  else if step < 0 then
    none
  else
    (t.transformations[step.toNat]?).bind fun l => l[index]?

/-- Embedding of `getTransformation(index)` with the step argument omitted:
the current cursor value is used. -/
def AssembleTask.getTransformationCur (t : AssembleTask) (index : Nat) :
    Option Transformation :=
  t.getTransformation index t._currentStep

/-- Embedding of `getTransformations(index)`. -/
def AssembleTask.getTransformations (t : AssembleTask) (index : Nat) :
    List (Option Transformation) :=
  t.transformations.map fun transformation => transformation[index]?

/-- Embedding of `[...trans.translation, ...trans.quaternion]`: a pose flattened to the
7-element sequence `[tx, ty, tz, qw, qx, qy, qz]`. -/
def flat7 (tr : Transformation) : List ℚ :=
  [tr.translation.x, tr.translation.y, tr.translation.z,
   tr.quaternion.w, tr.quaternion.x, tr.quaternion.y, tr.quaternion.z]

/-- The JSON document built by `exportJson`. -/
structure ExportDoc where
  name : JSStr
  num_parts : Nat
  gt_trans_rots : List (List ℚ)
  pred_trans_rots : List (List (List ℚ))
  removal_pieces : JSStr
  redundant_pieces : JSStr
  pieces : JSStr
  mesh_scale : ℚ
  pointclouds : List (List Vec3)
  deriving DecidableEq, Repr

/-- Embedding of `exportJson(name)`. -/
def AssembleTask.exportJson (t : AssembleTask) (name : JSStr) : ExportDoc :=
  { name := name
    num_parts := t.meshesFile.length
    gt_trans_rots := t.initial_transformations.map flat7
    pred_trans_rots :=
      t.originalTransformations.map fun allPartTrans => allPartTrans.map flat7
    removal_pieces := []
    redundant_pieces := []
    pieces := List.intercalate ",".data t.pieces
    mesh_scale := t.meshScale
    pointclouds := t.pointClouds }

/-- The parallel-history invariant: the normalized and the raw history have
the same number of recorded steps, and each step's two per-fragment lists
have the same length. -/
def histInv (t : AssembleTask) : Prop :=
  t.transformations.length = t.originalTransformations.length ∧
  ∀ i, (t.transformations.getD i []).length = (t.originalTransformations.getD i []).length

/-! ## Sample states used by the concrete witnesses -/

/-- A concrete unit-norm pose used by the witnesses. -/
def samplePose : Transformation := ⟨⟨1, 2, 3⟩, ⟨0, 1, 0, 0⟩⟩

/-- A concrete task state with two fragments, recorded initial
transformations and one recorded optimization step. -/
def sampleTask : AssembleTask :=
  { meshType := "obj".data
    status := AssembleStatus.PROGRESSING
    initial_transformations := [samplePose, identityTransformation]
    originalTransformations := [[identityTransformation, samplePose]]
    transformations := [[samplePose, samplePose]]
    pointClouds := [[⟨1, 0, 0⟩], [⟨0, 1, 0⟩]]
    fractureSurfaces := []
    _currentStep := 0
    _totalSteps := 4
    meshScale := 1
    pieces := ["a.obj".data, "b.obj".data]
    meshesFile := ["a.obj".data, "b.obj".data]
    meshesFilePathOnServer := [] }

/-- The `sampleTask` state, idle (status `INIT`): may start a run. -/
def sampleIdleTask : AssembleTask :=
  { sampleTask with status := AssembleStatus.INIT }

/-- A concrete task state with six recorded optimization steps. -/
def sampleTaskSixSteps : AssembleTask :=
  { sampleTask with
    transformations := List.replicate 6 [samplePose, samplePose]
    originalTransformations := List.replicate 6 [identityTransformation, samplePose] }

/-- Concrete settings used by the witnesses. -/
def sampleSettings : AssembleSettings :=
  { samplePoints := 5000
    steps := 20
    seed := 0
    maxIterations := 6
    oneStepInit := true
    sampleStrategy := SampleStrategy.uniform
    loraCheckpoint := some []
    ckpt := none
    dataCollection := false }

/-- A concrete `"transformation"` payload for two fragments. -/
def sampleTransformationData : TransformationData :=
  { translation := [⟨1, 0, 0⟩, ⟨0, 0, 2⟩]
    rotation := [⟨0, 1, 0, 0⟩, ⟨1, 0, 0, 0⟩]
    step := 0
    iter := 0 }

/-! ## Claim theorems -/

/-- Claim C1: `getTransformation(i, -2)` is the identity transform;
`getTransformation(i, -1)`, when initial transformations are recorded, is
`initialTransformations[i].inverse()`; for `0 ≤ s` below the recorded
history length it is `transformations[s][i]`; and with the step omitted the
current cursor value is used. -/
theorem getTransformation_spec (t : AssembleTask) (i s : Nat)
    (hinit : i < t.initial_transformations.length)
    (hs : s < t.transformations.length)
    (hi : i < (t.transformations[s]).length) :
    t.getTransformation i (-2) = some identityTransformation ∧
    t.getTransformation i (-1) = some ((t.initial_transformations[i]).inverse) ∧
    t.getTransformation i (s : Int) = some (t.transformations[s][i]) ∧
    t.getTransformationCur i = t.getTransformation i t._currentStep := by
  refine ⟨by simp [AssembleTask.getTransformation], ?_, ?_, rfl⟩
  · simp [AssembleTask.getTransformation, List.getElem?_eq_getElem hinit]
  · have hm2 : ¬((s : Int) = -2) := by omega
    have hm1 : ¬((s : Int) = -1) := by omega
    have hm0 : ¬((s : Int) < 0) := by omega
    simp only [AssembleTask.getTransformation, hm2, hm1, hm0, if_false,
      Int.toNat_natCast, List.getElem?_eq_getElem hs, Option.some_bind,
      List.getElem?_eq_getElem hi]

/-- Concrete instance of C1 on `sampleTask`. -/
theorem getTransformation_spec_witness :
    sampleTask.getTransformation 0 (-2) = some identityTransformation ∧
    sampleTask.getTransformation 0 (-1) = some (samplePose.inverse) ∧
    sampleTask.getTransformation 0 ((0 : Nat) : Int) = some samplePose := by
  have h := getTransformation_spec sampleTask 0 0 (by decide) (by decide) (by decide)
  exact ⟨h.1, h.2.1, h.2.2.1⟩

/-- Claim C5: assigning to `currentStep` fails with `InvalidStepError`
exactly when the target is `< -2` or `≥` the recorded history length, and
then leaves the task unchanged and emits nothing; any value in
`[-2, historyLength - 1]` succeeds, updates the cursor, and emits exactly
one step notification. -/
theorem setCurrentStep_spec (t : AssembleTask) (step : Int) :
    ((setCurrentStep t step).1.isOk = false ↔
      (step < -2 ∨ (t.transformations.length : Int) ≤ step)) ∧
    ((step < -2 ∨ (t.transformations.length : Int) ≤ step) →
      setCurrentStep t step = (.error "Invalid step index".data, t, [])) ∧
    (-2 ≤ step → step < (t.transformations.length : Int) →
      setCurrentStep t step =
        (.ok (), { t with _currentStep := step }, [Event.step step t._totalSteps])) := by
  refine ⟨?_, ?_, ?_⟩
  · by_cases h : step < -2 ∨ (t.transformations.length : Int) ≤ step <;>
      simp [setCurrentStep, h, Except.isOk, Except.toBool]
  · intro h
    simp [setCurrentStep, h]
  · intro h1 h2
    have h : ¬(step < -2 ∨ (t.transformations.length : Int) ≤ step) := by omega
    simp [setCurrentStep, h]

/-- Concrete instance of C5 on `sampleTask`: `-3` and the history length
fail, `0` succeeds with one step notification. -/
theorem setCurrentStep_spec_witness :
    setCurrentStep sampleTask (-3) =
      (.error "Invalid step index".data, sampleTask, []) ∧
    setCurrentStep sampleTask 1 =
      (.error "Invalid step index".data, sampleTask, []) ∧
    setCurrentStep sampleTask 0 =
      (.ok (), { sampleTask with _currentStep := 0 }, [Event.step 0 4]) := by
  refine ⟨(setCurrentStep_spec sampleTask (-3)).2.1 (by decide),
    (setCurrentStep_spec sampleTask 1).2.1 (by decide), ?_⟩
  have h := (setCurrentStep_spec sampleTask 0).2.2 (by decide) (by decide)
  exact h

/-- Claim C7: a `"fracture_segmentation"` payload overwrites
`fractureSurfaces` and notifies exactly when fewer than 6 optimization
steps are recorded; from 6 steps on it changes nothing and emits nothing. -/
theorem fracture_segmentation_spec (t : AssembleTask) (d : List (List Vec3)) :
    (t.transformations.length < 6 →
      handleData t (AssembleMsg.fracture_segmentation d) =
        ({ t with fractureSurfaces := d }, [Event.recvFractureSurfaces d])) ∧
    (6 ≤ t.transformations.length →
      handleData t (AssembleMsg.fracture_segmentation d) = (t, [])) := by
  constructor
  · intro h
    simp only [handleData, if_pos (by omega : t.transformations.length ≤ 5)]
  · intro h
    simp only [handleData, if_neg (by omega : ¬ t.transformations.length ≤ 5)]

/-- Concrete instance of C7: a task with 1 recorded step takes the update,
one with 6 recorded steps ignores it. -/
theorem fracture_segmentation_spec_witness :
    handleData sampleTask (AssembleMsg.fracture_segmentation [[⟨1, 1, 1⟩]]) =
      ({ sampleTask with fractureSurfaces := [[⟨1, 1, 1⟩]] },
       [Event.recvFractureSurfaces [[⟨1, 1, 1⟩]]]) ∧
    handleData sampleTaskSixSteps (AssembleMsg.fracture_segmentation [[⟨1, 1, 1⟩]]) =
      (sampleTaskSixSteps, []) :=
  ⟨(fracture_segmentation_spec sampleTask _).1 (by decide),
   (fracture_segmentation_spec sampleTaskSixSteps _).2 (by decide)⟩

/-- Claim C4: `startAssemble` fails exactly when the status is REQUESTED,
QUEUED or PROGRESSING; otherwise it clears the three histories, resets the
cursor to `-2`, sets `totalSteps` to
`steps * maxIterations + (oneStepInit ? 1 : 0)`, transitions to REQUESTED,
and emits a status notification followed by a step notification before the
single streaming submission. -/
theorem startAssemble_spec (t : AssembleTask) (settings : AssembleSettings) :
    ((∃ e, startAssemblePre t settings = .error e) ↔
      (t.status = .REQUESTED ∨ t.status = .QUEUED ∨ t.status = .PROGRESSING)) ∧
    (∀ t1 s1 evs args, startAssemblePre t settings = .ok (t1, s1, evs, args) →
      t1.transformations = [] ∧ t1.originalTransformations = [] ∧
      t1.initial_transformations = [] ∧ t1._currentStep = -2 ∧
      t1._totalSteps = settings.steps * settings.maxIterations +
        (if settings.oneStepInit then 1 else 0) ∧
      t1.status = .REQUESTED ∧
      evs = [Event.statusUpdate .REQUESTED, Event.step (-2) t1._totalSteps] ∧
      args = (if t.meshesFilePathOnServer.length = t.meshesFile.length then
          SubmitArgs.mk none t.meshesFilePathOnServer t.meshType s1
        else SubmitArgs.mk (some t.meshesFile) [] t.meshType s1)) := by
  constructor
  · constructor
    · rintro ⟨e, he⟩
      by_contra hg
      simp [startAssemblePre, hg] at he
    · intro hg
      exact ⟨"Task has already started".data, by simp [startAssemblePre, hg]⟩
  · intro t1 s1 evs args h
    by_cases hg : t.status = .REQUESTED ∨ t.status = .QUEUED ∨ t.status = .PROGRESSING
    · simp [startAssemblePre, hg] at h
    · simp only [startAssemblePre, if_neg hg, Except.ok.injEq, Prod.mk.injEq] at h
      obtain ⟨h1, h2, h3, h4⟩ := h
      subst h1 h2 h3 h4
      refine ⟨rfl, rfl, rfl, rfl, by simp [normalizeSettings], rfl, rfl, rfl⟩

/-- The state produced by `startAssemblePre sampleIdleTask sampleSettings`. -/
def sampleStartedTask : AssembleTask :=
  { sampleIdleTask with
    status := AssembleStatus.REQUESTED
    transformations := []
    originalTransformations := []
    initial_transformations := []
    _currentStep := -2
    _totalSteps := 121 }

/-- The `sampleSettings` value after the falsy-field deletion: the empty-string
`loraCheckpoint` is removed. -/
def sampleNormSettings : AssembleSettings :=
  { sampleSettings with loraCheckpoint := none }

/-- Concrete instance of C4: an idle task starts, and a PROGRESSING task
refuses to. -/
theorem startAssemble_spec_witness :
    (sampleStartedTask.transformations = [] ∧
      sampleStartedTask.status = AssembleStatus.REQUESTED ∧
      sampleStartedTask._totalSteps = 121) ∧
    (∃ e, startAssemblePre sampleTask sampleSettings = .error e) := by
  constructor
  · have h := (startAssemble_spec sampleIdleTask sampleSettings).2 sampleStartedTask
      sampleNormSettings
      [Event.statusUpdate AssembleStatus.REQUESTED, Event.step (-2) 121]
      (SubmitArgs.mk (some sampleIdleTask.meshesFile) [] sampleIdleTask.meshType
        sampleNormSettings)
      rfl
    exact ⟨h.1, h.2.2.2.2.2.1, by decide⟩
  · exact (startAssemble_spec sampleTask sampleSettings).1.2 (Or.inr (Or.inr rfl))

/-- Claim C10: `startAssemble` deletes a falsy `loraCheckpoint`/`ckpt`
field from the very settings object the caller passed in; the
`AssembleSettings` returned by `startAssemblePre` embeds that object's
state after the call, so the deletion stays visible to the caller. -/
theorem startAssemble_settings_mutation (t : AssembleTask) (s : AssembleSettings)
    (h : ¬(t.status = .REQUESTED ∨ t.status = .QUEUED ∨ t.status = .PROGRESSING)) :
    (startAssemblePre t s).toOption.map (fun out => out.2.1) =
      some { s with
        loraCheckpoint := normalizeOptField s.loraCheckpoint
        ckpt := normalizeOptField s.ckpt } ∧
    normalizeOptField none = none ∧
    normalizeOptField (some []) = none ∧
    (∀ str : JSStr, str ≠ [] → normalizeOptField (some str) = some str) := by
  refine ⟨?_, rfl, rfl, ?_⟩
  · simp [startAssemblePre, h, normalizeSettings, Except.toOption]
  · intro str hstr
    simp [normalizeOptField, hstr]

/-- Concrete instance of C10: the empty-string `loraCheckpoint` of
`sampleSettings` is observably gone after the call, the absent `ckpt`
stays absent. -/
theorem startAssemble_settings_mutation_witness :
    (startAssemblePre sampleIdleTask sampleSettings).toOption.map
        (fun out => out.2.1) =
      some { sampleSettings with loraCheckpoint := none, ckpt := none } := by
  have h := startAssemble_settings_mutation sampleIdleTask sampleSettings (by decide)
  simpa [normalizeOptField, sampleSettings] using h.1

/-! ## String lemmas for the constructor claim -/

/-- Splitting never returns an empty list of parts. -/
theorem splitOnDot_ne_nil (s : JSStr) : splitOnDot s ≠ [] := by
  cases s with
  | nil => simp [splitOnDot]
  | cons c s =>
    simp only [splitOnDot]
    split <;> simp

/-- A one-part split means the string had no dot: the part is the whole
string. -/
theorem eq_of_splitOnDot_eq_singleton (s p : JSStr) (hp : splitOnDot s = [p]) :
    p = s := by
  induction s generalizing p with
  | nil =>
    simp only [splitOnDot, List.cons.injEq] at hp
    exact hp.1.symm
  | cons c s ih =>
    simp only [splitOnDot] at hp
    split at hp
    · simp only [List.cons.injEq] at hp
      exact absurd hp.2 (splitOnDot_ne_nil s)
    · cases hr : splitOnDot s with
      | nil => exact absurd hr (splitOnDot_ne_nil s)
      | cons a l =>
        rw [hr] at hp
        simp only [List.cons.injEq] at hp
        cases l with
        | nil =>
          have ha := ih a hr
          simp only [List.headD_cons] at hp
          rw [hp.1.symm, ha]
        | cons b l2 => simp at hp

/-- The part after the last dot is a suffix of the string. -/
theorem extOf_suffix (s : JSStr) : extOf s <:+ s := by
  induction s with
  | nil => simp [extOf, splitOnDot]
  | cons c s ih =>
    simp only [extOf, splitOnDot]
    split
    · cases hr : splitOnDot s with
      | nil => exact absurd hr (splitOnDot_ne_nil s)
      | cons a l =>
        rw [List.getLastD_cons]
        have : (a :: l).getLastD [] <:+ s := by
          rw [← hr]
          exact ih
        cases l with
        | nil =>
          simp only [List.getLastD_cons, List.getLastD_nil] at this ⊢
          exact this.trans (List.suffix_cons c s)
        | cons b l2 =>
          simp only [List.getLastD_cons] at this ⊢
          exact this.trans (List.suffix_cons c s)
    · cases hr : splitOnDot s with
      | nil => exact absurd hr (splitOnDot_ne_nil s)
      | cons a l =>
        cases l with
        | nil =>
          have ha := eq_of_splitOnDot_eq_singleton s a hr
          simp only [List.headD_cons, List.tail_cons, List.getLastD_cons,
            List.getLastD_nil]
          rw [ha]
        | cons b l2 =>
          have hsuf : (a :: b :: l2).getLastD [] <:+ s := by
            rw [← hr]
            exact ih
          simp only [List.headD_cons, List.tail_cons, List.getLastD_cons] at hsuf ⊢
          exact hsuf.trans (List.suffix_cons c s)

/-- A string ends with its own part after the last dot. -/
theorem jsEndsWith_extOf (s : JSStr) : jsEndsWith s (extOf s) = true := by
  rw [jsEndsWith, List.isSuffixOf_iff_suffix]
  exact extOf_suffix s

/-- The constructor failure condition exactly as the specification words
it: fewer than 2 files, or the files' extensions are not all `obj` or all
`ply`, or some file's extension differs from the first file's. (To be
compared with the code's own check, which tests `endsWith` on whole
names.) -/
def claimedConstructorFailure (files : List JSStr) : Prop :=
  files.length < 2 ∨
  ¬((∀ f ∈ files, extOf f = "obj".data) ∨ (∀ f ∈ files, extOf f = "ply".data)) ∨
  (∃ f ∈ files, extOf f ≠ extOf (files.headD []))

/-- Counterexample to claim C6 as stated: for the files `a.obj` and `bobj`
the extensions differ (`obj` vs `bobj`), so the claimed condition predicts
failure, yet construction succeeds because `bobj` ends with `obj`. -/
theorem mkAssembleTask_claim_counterexample :
    claimedConstructorFailure ["a.obj".data, "bobj".data] ∧
    (mkAssembleTask ["a.obj".data, "bobj".data] []).isOk = true := by
  constructor
  · refine Or.inr (Or.inr ⟨"bobj".data, by simp, by decide⟩)
  · decide

/-- Claim C6 amended: construction fails exactly when fewer than 2 files
are given, or the first file's extension is not `obj`/`ply`, or some
file's name does not end with the first file's extension; and any 2+ files
all sharing extension `obj`, or all sharing extension `ply`, are
accepted. -/
theorem mkAssembleTask_spec (files paths : List JSStr) :
    ((mkAssembleTask files paths).isOk = false ↔
      (files.length < 2 ∨
       ¬(extOf (files.headD []) = "obj".data ∨ extOf (files.headD []) = "ply".data) ∨
       ∃ f ∈ files, jsEndsWith f (extOf (files.headD [])) = false)) ∧
    (2 ≤ files.length →
      ((∀ f ∈ files, extOf f = "obj".data) ∨ (∀ f ∈ files, extOf f = "ply".data)) →
      (mkAssembleTask files paths).isOk = true) := by
  constructor
  · by_cases h1 : files.length < 2
    · simp [mkAssembleTask, h1, Except.isOk, Except.toBool]
    · by_cases h2 : extOf (files.headD []) = "obj".data ∨ extOf (files.headD []) = "ply".data
      · by_cases h3 : files.all (fun f => jsEndsWith f (extOf (files.headD []))) = true
        · rw [List.all_eq_true] at h3
          simp only [mkAssembleTask, if_neg h1, if_pos h2,
            if_pos (List.all_eq_true.mpr h3), Except.isOk, Except.toBool]
          simp only [Bool.true_eq_false, false_iff]
          push_neg
          refine ⟨by omega, h2, fun f hf => ?_⟩
          have hh := h3 f hf
          simp only [] at hh
          simpa [List.headD_eq_head?_getD] using hh
        · simp only [mkAssembleTask, if_neg h1, if_pos h2, if_neg h3,
            Except.isOk, Except.toBool, true_iff]
          rw [List.all_eq_true] at h3
          push_neg at h3
          obtain ⟨f, hf, hff⟩ := h3
          exact Or.inr (Or.inr ⟨f, hf, by simpa using hff⟩)
      · simp only [mkAssembleTask, if_neg h1, if_neg h2, Except.isOk,
          Except.toBool, true_iff]
        exact Or.inr (Or.inl h2)
  · intro hlen hall
    obtain ⟨g, gs, rfl⟩ : ∃ g gs, files = g :: gs := by
      cases files with
      | nil => simp at hlen
      | cons g gs => exact ⟨g, gs, rfl⟩
    have hhead : (g :: gs).headD [] = g := rfl
    have hext : ∀ f ∈ g :: gs, extOf f = extOf g := by
      rcases hall with hobj | hply
      · intro f hf
        rw [hobj f hf, hobj g (by simp)]
      · intro f hf
        rw [hply f hf, hply g (by simp)]
    have h2 : extOf ((g :: gs).headD []) = "obj".data ∨
        extOf ((g :: gs).headD []) = "ply".data := by
      rw [hhead]
      rcases hall with hobj | hply
      · exact Or.inl (hobj g (by simp))
      · exact Or.inr (hply g (by simp))
    have h3 : (g :: gs).all (fun f => jsEndsWith f (extOf ((g :: gs).headD []))) = true := by
      rw [List.all_eq_true]
      intro f hf
      rw [hhead, ← hext f hf]
      exact jsEndsWith_extOf f
    simp only [mkAssembleTask, if_neg (by omega : ¬(g :: gs).length < 2),
      if_pos h2, if_pos h3, Except.isOk, Except.toBool]

/-- Concrete success instance for the amended C6: two plain `.ply` files. -/
theorem mkAssembleTask_spec_witness :
    (mkAssembleTask ["a.ply".data, "b.ply".data] []).isOk = true :=
  (mkAssembleTask_spec ["a.ply".data, "b.ply".data] []).2 (by decide)
    (Or.inr (by decide))

/-- The element a `push` appends is found at the old length. -/
theorem getD_concat_self {α : Type} (l : List α) (x d : α) :
    (l ++ [x]).getD l.length d = x := by
  rw [List.getD_eq_getElem?_getD, List.getElem?_concat_length, Option.getD_some]

/-- Mapping with index applies the function to the index and the element there. -/
theorem getElem_mapIdx_eq {α β : Type} (l : List α) (f : Nat → α → β) (i : Nat)
    (h : i < l.length) (h2 : i < (List.mapIdx f l).length) :
    (List.mapIdx f l)[i] = f i l[i] := by
  have h3 := List.get_mapIdx l f i h
  rw [List.get_eq_getElem, List.get_eq_getElem] at h3
  exact h3

/-- Claim C3: a `"transformation"` payload (with initial transformations
recorded, one per fragment) appends the raw per-fragment poses to
`originalTransformations`, appends the normalized poses (raw composed with
the inverse of the fragment's initial transformation) to
`transformations`, sets the cursor to the new last index, and emits
exactly one step notification with that index and `totalSteps`. -/
theorem transformation_msg_spec (t : AssembleTask) (d : TransformationData)
    (hr : d.rotation.length = d.translation.length)
    (hinit : t.initial_transformations.length = d.translation.length) :
    (handleData t (AssembleMsg.transformation d)).1.originalTransformations.length
        = t.originalTransformations.length + 1 ∧
    (handleData t (AssembleMsg.transformation d)).1.originalTransformations.take
        t.originalTransformations.length = t.originalTransformations ∧
    (handleData t (AssembleMsg.transformation d)).1.transformations.length
        = t.transformations.length + 1 ∧
    (handleData t (AssembleMsg.transformation d)).1.transformations.take
        t.transformations.length = t.transformations ∧
    ((handleData t (AssembleMsg.transformation d)).1.originalTransformations.getD
        t.originalTransformations.length []).length = d.translation.length ∧
    ((handleData t (AssembleMsg.transformation d)).1.transformations.getD
        t.transformations.length []).length = d.translation.length ∧
    (∀ i, ∀ hi : i < d.translation.length,
      ((handleData t (AssembleMsg.transformation d)).1.originalTransformations.getD
          t.originalTransformations.length []).getD i defaultTransformation =
        Transformation.mk (d.translation[i]) (d.rotation[i]) ∧
      ((handleData t (AssembleMsg.transformation d)).1.transformations.getD
          t.transformations.length []).getD i defaultTransformation =
        (Transformation.mk (d.translation[i]) (d.rotation[i])).applyTransformation
          ((t.initial_transformations[i]).inverse)) ∧
    (handleData t (AssembleMsg.transformation d)).1._currentStep
        = (t.transformations.length : Int) ∧
    (handleData t (AssembleMsg.transformation d)).2
        = [Event.step (t.transformations.length : Int) t._totalSteps] := by
  have hredT : (handleData t (AssembleMsg.transformation d)).1.transformations =
      t.transformations ++ [d.translation.mapIdx fun idx trans =>
        (Transformation.mk trans (d.rotation.getD idx defaultQuat)).applyTransformation
          ((t.initial_transformations.getD idx defaultTransformation).inverse)] := rfl
  have hredO : (handleData t (AssembleMsg.transformation d)).1.originalTransformations =
      t.originalTransformations ++ [d.translation.mapIdx fun idx trans =>
        Transformation.mk trans (d.rotation.getD idx defaultQuat)] := rfl
  have hredC : (handleData t (AssembleMsg.transformation d)).1._currentStep =
      ((t.transformations ++ [d.translation.mapIdx fun idx trans =>
        (Transformation.mk trans (d.rotation.getD idx defaultQuat)).applyTransformation
          ((t.initial_transformations.getD idx defaultTransformation).inverse)]).length : Int)
        - 1 := rfl
  have hredE : (handleData t (AssembleMsg.transformation d)).2 =
      [Event.step (((t.transformations ++ [d.translation.mapIdx fun idx trans =>
        (Transformation.mk trans (d.rotation.getD idx defaultQuat)).applyTransformation
          ((t.initial_transformations.getD idx defaultTransformation).inverse)]).length : Int)
        - 1) t._totalSteps] := rfl
  refine ⟨?_, ?_, ?_, ?_, ?_, ?_, ?_, ?_, ?_⟩
  · rw [hredO]
    simp
  · rw [hredO, List.take_left]
  · rw [hredT]
    simp
  · rw [hredT, List.take_left]
  · rw [hredO, getD_concat_self, List.length_mapIdx]
  · rw [hredT, getD_concat_self, List.length_mapIdx]
  · intro i hi
    have hi2 : i < d.rotation.length := by omega
    have hi3 : i < t.initial_transformations.length := by omega
    constructor
    · have hlen : i < (List.mapIdx (fun idx trans =>
          Transformation.mk trans (d.rotation.getD idx defaultQuat))
            d.translation).length := by
        simpa using hi
      rw [hredO, getD_concat_self, List.getD_eq_getElem _ _ hlen,
        getElem_mapIdx_eq _ _ i hi hlen]
      rw [List.getD_eq_getElem _ _ hi2]
    · have hlen : i < (List.mapIdx (fun idx trans =>
          (Transformation.mk trans (d.rotation.getD idx defaultQuat)).applyTransformation
            ((t.initial_transformations.getD idx defaultTransformation).inverse))
            d.translation).length := by
        simpa using hi
      rw [hredT, getD_concat_self, List.getD_eq_getElem _ _ hlen,
        getElem_mapIdx_eq _ _ i hi hlen]
      rw [List.getD_eq_getElem _ _ hi2, List.getD_eq_getElem _ _ hi3]
  · rw [hredC]
    simp
  · rw [hredE]
    simp

/-- Concrete instance of C3 on `sampleTask`: the second recorded step gets
index 1 and one step notification. -/
theorem transformation_msg_spec_witness :
    (handleData sampleTask
        (AssembleMsg.transformation sampleTransformationData)).1.transformations.length
      = 2 ∧
    (handleData sampleTask
        (AssembleMsg.transformation sampleTransformationData)).1._currentStep = 1 ∧
    (handleData sampleTask (AssembleMsg.transformation sampleTransformationData)).2
      = [Event.step 1 4] := by
  have h := transformation_msg_spec sampleTask sampleTransformationData rfl rfl
  refine ⟨?_, ?_, ?_⟩
  · rw [h.2.2.1]
    decide
  · rw [h.2.2.2.2.2.2.2.1]
    decide
  · rw [h.2.2.2.2.2.2.2.2]
    decide

/-- Claim C8: `exportJson` is a pure function of the fields it reads (name,
fragment count, initial and raw histories, pieces, scale, point clouds);
`pred_trans_rots` is step-major with fragment-count inner length and
7-element entries taken from `originalTransformations`; `gt_trans_rots`
flattens `initialTransformations` the same way; the two reserved fields
are empty strings; `pieces` is the comma-joined name list; `mesh_scale`
and `pointclouds` are the cached values. -/
theorem exportJson_spec (t t2 : AssembleTask) (name : JSStr)
    (hframe : t2.meshesFile.length = t.meshesFile.length ∧
      t2.initial_transformations = t.initial_transformations ∧
      t2.originalTransformations = t.originalTransformations ∧
      t2.pieces = t.pieces ∧ t2.meshScale = t.meshScale ∧
      t2.pointClouds = t.pointClouds)
    (hsteps : t.originalTransformations.length = t.transformations.length)
    (hfrag : ∀ l ∈ t.originalTransformations, l.length = t.meshesFile.length) :
    t2.exportJson name = t.exportJson name ∧
    (t.exportJson name).pred_trans_rots.length = t.transformations.length ∧
    (∀ l ∈ (t.exportJson name).pred_trans_rots, l.length = t.meshesFile.length) ∧
    (∀ l ∈ (t.exportJson name).pred_trans_rots, ∀ e ∈ l, e.length = 7) ∧
    (∀ s, ∀ hs : s < t.originalTransformations.length,
      ∀ i, ∀ hi : i < (t.originalTransformations[s]).length,
      ((t.exportJson name).pred_trans_rots.getD s []).getD i []
        = flat7 (t.originalTransformations[s][i])) ∧
    (t.exportJson name).gt_trans_rots = t.initial_transformations.map flat7 ∧
    (t.exportJson name).removal_pieces = [] ∧
    (t.exportJson name).redundant_pieces = [] ∧
    (t.exportJson name).pieces = List.intercalate ",".data t.pieces ∧
    (t.exportJson name).mesh_scale = t.meshScale ∧
    (t.exportJson name).pointclouds = t.pointClouds := by
  obtain ⟨hf1, hf2, hf3, hf4, hf5, hf6⟩ := hframe
  refine ⟨?_, ?_, ?_, ?_, ?_, rfl, rfl, rfl, rfl, rfl, rfl⟩
  · simp only [AssembleTask.exportJson, hf1, hf2, hf3, hf4, hf5, hf6]
  · simp only [AssembleTask.exportJson, List.length_map, hsteps]
  · intro l hl
    simp only [AssembleTask.exportJson, List.mem_map] at hl
    obtain ⟨a, ha, rfl⟩ := hl
    simp [hfrag a ha]
  · intro l hl e he
    simp only [AssembleTask.exportJson, List.mem_map] at hl
    obtain ⟨a, ha, rfl⟩ := hl
    simp only [List.mem_map] at he
    obtain ⟨tr, htr, rfl⟩ := he
    rfl
  · intro s hs i hi
    have hs2 : s < (t.originalTransformations.map
        fun allPartTrans => allPartTrans.map flat7).length := by
      simpa using hs
    have hi2 : i < ((t.originalTransformations[s]).map flat7).length := by
      simpa using hi
    show ((t.originalTransformations.map
        fun allPartTrans => allPartTrans.map flat7).getD s []).getD i [] = _
    rw [List.getD_eq_getElem _ _ hs2, List.getElem_map,
      List.getD_eq_getElem _ _ hi2, List.getElem_map]

/-- Concrete instance of C8 on `sampleTask`. -/
theorem exportJson_spec_witness :
    (sampleTask.exportJson "demo".data).pred_trans_rots.length = 1 ∧
    (sampleTask.exportJson "demo".data).removal_pieces = [] ∧
    ((sampleTask.exportJson "demo".data).pred_trans_rots.getD 0 []).getD 1 []
      = flat7 samplePose := by
  have h := exportJson_spec sampleTask sampleTask "demo".data
    ⟨rfl, rfl, rfl, rfl, rfl, rfl⟩ rfl (by decide)
  refine ⟨by rw [h.2.1]; decide, h.2.2.2.2.2.2.1, ?_⟩
  have h5 := h.2.2.2.2.1 0 (by decide) 1 (by decide)
  exact h5

/-- Defaulted indexing of an append, inside the left part. -/
theorem getD_append_lt {α : Type} (l1 l2 : List α) (i : Nat) (d : α)
    (h : i < l1.length) :
    (l1 ++ l2).getD i d = l1.getD i d := by
  rw [List.getD_eq_getElem?_getD, List.getD_eq_getElem?_getD,
    List.getElem?_append, if_pos h]

/-- Defaulted indexing of an append, past the left part. -/
theorem getD_append_ge {α : Type} (l1 l2 : List α) (i : Nat) (d : α)
    (h : l1.length ≤ i) :
    (l1 ++ l2).getD i d = l2.getD (i - l1.length) d := by
  rw [List.getD_eq_getElem?_getD, List.getD_eq_getElem?_getD,
    List.getElem?_append_right h]

/-- Claim C9: the parallel-history invariant (equal step counts in
`transformations` and `originalTransformations`, and equal per-step
fragment counts) holds after construction and after the `startAssemble`
reset, and is preserved by every streaming message and by cursor
assignment. -/
theorem histInv_preserved :
    (∀ files paths t, mkAssembleTask files paths = .ok t → histInv t) ∧
    (∀ t s out, startAssemblePre t s = .ok out → histInv out.1) ∧
    (∀ t m, histInv t → histInv (handleMsg t m).1) ∧
    (∀ t s, histInv t → histInv (setCurrentStep t s).2.1) := by
  refine ⟨?_, ?_, ?_, ?_⟩
  · intro files paths t h
    simp only [mkAssembleTask] at h
    split_ifs at h
    all_goals
      first
      | exact Except.noConfusion h
      | (injection h with h4
         subst h4
         exact ⟨rfl, fun i => rfl⟩)
  · intro t s out h
    simp only [startAssemblePre] at h
    split_ifs at h
    all_goals
      first
      | exact Except.noConfusion h
      | (injection h with h2
         subst h2
         exact ⟨rfl, fun i => rfl⟩)
  · intro t m hInv
    obtain ⟨hlen, hin⟩ := hInv
    cases m with
    | status stage => cases stage <;> exact ⟨hlen, hin⟩
    | log => exact ⟨hlen, hin⟩
    | data d =>
      cases d with
      | mesh_scale q =>
        by_cases hc : q ≠ t.meshScale
        · simp only [handleMsg, handleData, if_pos hc]
          exact ⟨hlen, hin⟩
        · simp only [handleMsg, handleData, if_neg hc]
          exact ⟨hlen, hin⟩
      | input d2 => exact ⟨hlen, hin⟩
      | fracture_segmentation d2 =>
        by_cases hc : t.transformations.length ≤ 5
        · simp only [handleMsg, handleData, if_pos hc]
          exact ⟨hlen, hin⟩
        · simp only [handleMsg, handleData, if_neg hc]
          exact ⟨hlen, hin⟩
      | metrics d2 => exact ⟨hlen, hin⟩
      | transformation d2 =>
        have hT : (handleMsg t
              (GradioMsg.data (AssembleMsg.transformation d2))).1.transformations =
            t.transformations ++ [d2.translation.mapIdx fun idx trans =>
              (Transformation.mk trans
                  (d2.rotation.getD idx defaultQuat)).applyTransformation
                ((t.initial_transformations.getD idx defaultTransformation).inverse)] :=
          rfl
        have hO : (handleMsg t
              (GradioMsg.data (AssembleMsg.transformation d2))).1.originalTransformations =
            t.originalTransformations ++ [d2.translation.mapIdx fun idx trans =>
              Transformation.mk trans (d2.rotation.getD idx defaultQuat)] := rfl
        refine ⟨?_, ?_⟩
        · rw [hT, hO]
          simp [hlen]
        · intro i
          rw [hT, hO]
          by_cases hc : i < t.transformations.length
          · rw [getD_append_lt _ _ _ _ hc, getD_append_lt _ _ _ _ (by omega)]
            exact hin i
          · rw [getD_append_ge _ _ _ _ (by omega), getD_append_ge _ _ _ _ (by omega)]
            have he : i - t.originalTransformations.length
                = i - t.transformations.length := by omega
            rw [he]
            cases hk : i - t.transformations.length with
            | zero => simp
            | succ m => simp
  · intro t s hInv
    by_cases hc : s < -2 ∨ (t.transformations.length : Int) ≤ s
    · simp only [setCurrentStep, if_pos hc]
      exact hInv
    · simp only [setCurrentStep, if_neg hc]
      exact hInv

/-- Concrete instance of C9: the invariant survives a `"transformation"`
message on `sampleTask`. -/
theorem histInv_preserved_witness :
    histInv (handleMsg sampleTask
      (GradioMsg.data (AssembleMsg.transformation sampleTransformationData))).1 :=
  histInv_preserved.2.2.1 sampleTask _
    ⟨rfl, by intro i; cases i <;> simp [sampleTask]⟩
